import Mathlib

/-!
# Verification of the Crazy Eights game engine

Shallow embedding of the game engine of the repository (a React Crazy
Eights app).  The authoritative source is the main application file
(`src/unnamed/part_000`): `initGame`, `checkWinner`, `handleDraw`,
`handlePlayCard`, `handleSuitSelection` and the AI turn resolution
(the `useEffect` running when `status = ai_turn`, embedded here as
`resolveComputerTurn`).  The React state pair `(gameState, pendingEight)`
is embedded as a single record with a `pendingEight` field.  JS arrays
become `List`s with the same index orientation (index 0 = front;
`push`/`pop` act on the tail, so `pop` is `getLast?`/`dropLast`).

`constants.ts` (`createDeck`, `isValidMove`) is not part of the sources;
`isValidMove` is modelled from the spec, and `initGame` is parametrised
by the freshly shuffled deck that `createDeck` returns.
-/

namespace CrazyEights

inductive Suit where
  | hearts | diamonds | clubs | spades
deriving DecidableEq, Repr

inductive Rank where
  | ace | two | three | four | five | six | seven | eight
  | nine | ten | jack | queen | king
deriving DecidableEq, Repr

/-- `Card` from types.ts.  `id` is the unique string identifier generated by
`createDeck`; it is embedded as a `Nat` (only equality of ids is ever used). -/
structure Card where
  id : Nat
  suit : Suit
  rank : Rank
deriving DecidableEq, Repr

instance : Inhabited Card := ⟨⟨0, Suit.hearts, Rank.ace⟩⟩

inductive GameStatus where
  | dealing | player_turn | ai_turn | game_over | selecting_suit
deriving DecidableEq, Repr

inductive Winner where
  | player | ai
deriving DecidableEq, Repr

/-- `GameState` from types.ts, extended (as the spec's design notes direct)
with the `pendingEight` side-channel that the source keeps in a sibling
`useState`. -/
structure GameState where
  deck : List Card
  discardPile : List Card
  playerHand : List Card
  aiHand : List Card
  currentSuit : Suit
  currentRank : Rank
  status : GameStatus
  winner : Option Winner
  lastAction : String
  pendingEight : Option Card
deriving DecidableEq, Repr

/-- Chinese suit name used in the source's status strings. -/
def suitCN : Suit → String
  | Suit.hearts => "红心"
  | Suit.diamonds => "方块"
  | Suit.clubs => "梅花"
  | Suit.spades => "黑桃"

/-- Rank display string, as rendered by the source. -/
def rankStr : Rank → String
  | Rank.ace => "A"
  | Rank.two => "2"
  | Rank.three => "3"
  | Rank.four => "4"
  | Rank.five => "5"
  | Rank.six => "6"
  | Rank.seven => "7"
  | Rank.eight => "8"
  | Rank.nine => "9"
  | Rank.ten => "10"
  | Rank.jack => "J"
  | Rank.queen => "Q"
  | Rank.king => "K"

/-- Modelled from the spec: `isValidMove` lives in `constants.ts`, which is
absent from the sources.  Spec §4.2: a card is playable iff its rank is 8
(wild), or its suit matches `currentSuit`, or its rank matches
`currentRank`. -/
def isValidMove (card : Card) (currentSuit : Suit) (currentRank : Rank) : Bool :=
  decide (card.rank = Rank.eight) || decide (card.suit = currentSuit)
    || decide (card.rank = currentRank)

/-- `checkWinner` from the source: player's hand is checked first. -/
def checkWinner (state : GameState) : Option Winner :=
  if state.playerHand.length = 0 then some Winner.player
  else if state.aiHand.length = 0 then some Winner.ai
  else none

/-- The first non-8 card of the list together with the list with that card
removed (the JS `while` scan from index 0 followed by `splice(i, 1)` in
`initGame`: 8s sitting before the found card stay in the deck). -/
def findFirstNonEight : List Card → Option (Card × List Card)
  | [] => none
  | c :: cs =>
    if c.rank = Rank.eight then
      (findFirstNonEight cs).map (fun p => (p.1, c :: p.2))
    else
      some (c, cs)

/-- `initGame` from the source, parametrised by the shuffled deck returned by
`createDeck` (which is random and lives in the missing `constants.ts`).
`splice(0, 8)` twice deals from the front; the initial-discard scan starts at
index 0 of the remaining deck; the `throw` becomes `Except.error`. -/
def initGame (deck : List Card) : Except String GameState :=
  let playerHand := deck.take 8
  let aiHand := (deck.drop 8).take 8
  let rest := deck.drop 16
  match findFirstNonEight rest with
  | none => Except.error "无法找到非8的初始弃牌。"
  | some (firstDiscard, newDeck) =>
    Except.ok
      { deck := newDeck
        discardPile := [firstDiscard]
        playerHand := playerHand
        aiHand := aiHand
        currentSuit := firstDiscard.suit
        currentRank := firstDiscard.rank
        status := GameStatus.player_turn
        winner := none
        lastAction := "游戏开始！轮到你了。"
        pendingEight := none }

/-- `handleDraw` from the source.  `deck.pop()` removes the tail element. -/
def handleDraw (s : GameState) : GameState :=
  if s.status ≠ GameStatus.player_turn then s
  else
    match s.deck.getLast? with
    | none =>
      { s with status := GameStatus.ai_turn, lastAction := "牌堆已空！跳过回合。" }
    | some drawnCard =>
      let canPlayDrawn := isValidMove drawnCard s.currentSuit s.currentRank
      { s with
          deck := s.deck.dropLast
          playerHand := s.playerHand ++ [drawnCard]
          lastAction := "你摸了一张 " ++ rankStr drawnCard.rank ++ " ("
            ++ suitCN drawnCard.suit ++ ")。"
          status := if canPlayDrawn then GameStatus.player_turn else GameStatus.ai_turn }

/-- `handlePlayCard` from the source.  Guards: status must be `player_turn`
and `isValidMove` must accept; hand membership of `card` is NOT checked.
Removal is by id (`filter (c.id ≠ card.id)`); an 8 parks the card in
`pendingEight` and moves to `selecting_suit`, otherwise the target is
updated and `checkWinner` may end the game. -/
def handlePlayCard (s : GameState) (card : Card) : GameState :=
  if s.status ≠ GameStatus.player_turn then s
  else if ¬ (isValidMove card s.currentSuit s.currentRank = true) then s
  else
    let newHand := s.playerHand.filter (fun c => decide (c.id ≠ card.id))
    let newDiscardPile := card :: s.discardPile
    if card.rank = Rank.eight then
      { s with
          playerHand := newHand
          discardPile := newDiscardPile
          status := GameStatus.selecting_suit
          lastAction := "你打出了 8！请选择一个新花色。"
          pendingEight := some card }
    else
      let newState : GameState :=
        { s with
            playerHand := newHand
            discardPile := newDiscardPile
            currentSuit := card.suit
            currentRank := card.rank
            status := GameStatus.ai_turn
            lastAction := "你打出了 " ++ rankStr card.rank ++ " ("
              ++ suitCN card.suit ++ ")。" }
      match checkWinner newState with
      | some w => { newState with status := GameStatus.game_over, winner := some w }
      | none => newState

/-- `handleSuitSelection` from the source.  The only guard is
`pendingEight` being present: the status is NOT inspected. -/
def handleSuitSelection (s : GameState) (suit : Suit) : GameState :=
  match s.pendingEight with
  | none => s
  | some _ =>
    { s with
        currentSuit := suit
        currentRank := Rank.eight
        status := GameStatus.ai_turn
        lastAction := "花色已更改为 " ++ suitCN suit ++ "！"
        pendingEight := none }

/-- The `reduce` in the AI branch: suit occurrence counts accumulated as an
association list in first-encounter order (JS object keys preserve insertion
order). -/
def bumpSuit : List (Suit × Nat) → Suit → List (Suit × Nat)
  | [], t => [(t, 1)]
  | (u, n) :: rest, t =>
    if u = t then (u, n + 1) :: rest else (u, n) :: bumpSuit rest t

/-- `suitCounts` of the AI branch, over a hand. -/
def suitCounts (hand : List Card) : List (Suit × Nat) :=
  hand.foldl (fun acc c => bumpSuit acc c.suit) []

/-- The first entry of maximal count.  The source computes
`Object.keys(suitCounts).sort((a, b) => counts[b] - counts[a])[0]`: a stable
descending sort, whose head is exactly the first-encountered entry of maximal
count. -/
def pickTopSuit : List (Suit × Nat) → Option (Suit × Nat)
  | [] => none
  | p :: rest =>
    match pickTopSuit rest with
    | none => some p
    | some q => if q.2 > p.2 then some q else some p

/-- The AI's suit choice after playing an 8: most frequent suit of the
remaining hand, `hearts` when the hand is empty (`|| 'hearts'`). -/
def aiPickSuit (hand : List Card) : Suit :=
  match pickTopSuit (suitCounts hand) with
  | some p => p.1
  | none => Suit.hearts

/-- The playable cards of the AI hand, in hand order (the `filter` at the top
of the AI `useEffect`). -/
def aiPlayableCards (s : GameState) : List Card :=
  s.aiHand.filter (fun c => isValidMove c s.currentSuit s.currentRank)

/-- The AI's card choice among its playable cards: the source's
`const nonEight = playable.find(c => c.rank !== '8');
const cardToPlay = nonEight || playable[0];`, guarded by
`playable.length > 0` (`none` when there is no playable card). -/
def aiSelectCard (playable : List Card) : Option Card :=
  match playable with
  | [] => none
  | firstPlayable :: _ =>
    match playable.find? (fun c => decide (c.rank ≠ Rank.eight)) with
    | some nonEight => some nonEight
    | none => some firstPlayable

/-- The AI turn of the source (the `useEffect` body that runs once when
`status` is `ai_turn`; the pacing timer is external to the engine).  Plays
the first playable non-8, else the first playable card; on an 8 picks the
most frequent remaining suit; otherwise draws from the deck tail or
forfeits. -/
def resolveComputerTurn (s : GameState) : GameState :=
  if s.status ≠ GameStatus.ai_turn then s
  else
    match aiSelectCard (aiPlayableCards s) with
    | some cardToPlay =>
      let newHand := s.aiHand.filter (fun c => decide (c.id ≠ cardToPlay.id))
      let newDiscardPile := cardToPlay :: s.discardPile
      let nextSuit :=
        if cardToPlay.rank = Rank.eight then aiPickSuit newHand else cardToPlay.suit
      let nextAction :=
        if cardToPlay.rank = Rank.eight then
          "AI 打出了 8 并将花色更改为 " ++ suitCN (aiPickSuit newHand) ++ "！"
        else
          "AI 打出了 " ++ rankStr cardToPlay.rank ++ " ("
            ++ suitCN cardToPlay.suit ++ ")。"
      let newState : GameState :=
        { s with
            aiHand := newHand
            discardPile := newDiscardPile
            currentSuit := nextSuit
            currentRank := cardToPlay.rank
            status := GameStatus.player_turn
            lastAction := nextAction }
      match checkWinner newState with
      | some w => { newState with status := GameStatus.game_over, winner := some w }
      | none => newState
    | none =>
      match s.deck.getLast? with
      | some drawn =>
        { s with
            deck := s.deck.dropLast
            aiHand := s.aiHand ++ [drawn]
            lastAction := "AI 摸了一张牌。"
            status :=
              if isValidMove drawn s.currentSuit s.currentRank then GameStatus.ai_turn
              else GameStatus.player_turn }
      | none =>
        { s with status := GameStatus.player_turn, lastAction := "AI 跳过回合（牌堆已空）。" }

/-- The UI's playable indicator on a player-hand card (the `isPlayable` prop
computed in the render). -/
def uiIsPlayable (s : GameState) (card : Card) : Bool :=
  decide (s.status = GameStatus.player_turn)
    && isValidMove card s.currentSuit s.currentRank

/-- All cards across the four zones, in a fixed zone order. -/
def allCards (s : GameState) : List Card :=
  s.deck ++ s.discardPile ++ s.playerHand ++ s.aiHand

/-- Number of cards of a given suit in a hand. -/
def countSuit (hand : List Card) (su : Suit) : Nat :=
  (hand.filter (fun c => decide (c.suit = su))).length

/-- First-occurrence lookup in a suit-count association list, 0 when absent. -/
def lookupCount : List (Suit × Nat) → Suit → Nat
  | [], _ => 0
  | (u, n) :: rest, su => if u = su then n else lookupCount rest su

/-- The key sequence of a suit-count association list. -/
def keysOf (l : List (Suit × Nat)) : List Suit :=
  l.map Prod.fst

/-- The initial discard as the claim reads it: the first non-8 card found
scanning the post-deal deck from the draw end (draws pop the tail, so the
"top" of the deck stack is its last element).  The code instead scans from
index 0, the opposite end. -/
def initialDiscardClaim (deck : List Card) : Option Card :=
  ((deck.drop 16).reverse).find? (fun c => decide (c.rank ≠ Rank.eight))

/-- The four suits in the order of types.ts. -/
def suitList : List Suit :=
  [Suit.hearts, Suit.diamonds, Suit.clubs, Suit.spades]

/-- The thirteen ranks in the order of types.ts. -/
def rankList : List Rank :=
  [Rank.ace, Rank.two, Rank.three, Rank.four, Rank.five, Rank.six, Rank.seven,
   Rank.eight, Rank.nine, Rank.ten, Rank.jack, Rank.queen, Rank.king]

/-- A concrete 52-card deck (one card per suit×rank pair, ids 0..51), in
suit-major order; stands for one possible output of `createDeck`. -/
def fullDeck : List Card :=
  (List.range 52).map (fun i =>
    ⟨i, suitList.getD (i / 13) Suit.hearts, rankList.getD (i % 13) Rank.ace⟩)

/-- A small concrete mid-game state: the player holds a lone 8 of spades,
the discard top is the 5 of hearts, and it is the player's turn. -/
def s0 : GameState :=
  { deck := [⟨2, Suit.clubs, Rank.two⟩]
    discardPile := [⟨3, Suit.hearts, Rank.five⟩]
    playerHand := [⟨0, Suit.spades, Rank.eight⟩]
    aiHand := [⟨1, Suit.hearts, Rank.ace⟩]
    currentSuit := Suit.hearts
    currentRank := Rank.five
    status := GameStatus.player_turn
    winner := none
    lastAction := ""
    pendingEight := none }

/-- Like `s0` but the player holds the 5 of hearts; used to exercise
`handlePlayCard` with a card that is not in the player's hand. -/
def t0 : GameState :=
  { s0 with playerHand := [⟨0, Suit.hearts, Rank.five⟩] }

/-- A state with a pending wild card but status `player_turn`, exercising
`handleSuitSelection` outside `selecting_suit`. -/
def u1 : GameState :=
  { s0 with
      playerHand := [⟨4, Suit.clubs, Rank.nine⟩]
      pendingEight := some ⟨0, Suit.spades, Rank.eight⟩ }

/-- The freshly initialized state over `fullDeck` (used as a fully dealt
52-card position). -/
def v0 : GameState :=
  match initGame fullDeck with
  | Except.ok st => st
  | Except.error _ => s0

/-- A concrete state for exercising `handleDraw`: one card in the deck,
player to move. -/
def w6 : GameState :=
  { s0 with
      playerHand := [⟨4, Suit.clubs, Rank.nine⟩]
      deck := [⟨2, Suit.hearts, Rank.two⟩] }

/-- A concrete state for exercising the AI turn: the AI holds an 8 and two
clubs, only the 8 being playable. -/
def w5 : GameState :=
  { s0 with
      status := GameStatus.ai_turn
      playerHand := [⟨4, Suit.clubs, Rank.nine⟩]
      aiHand := [⟨5, Suit.spades, Rank.eight⟩, ⟨6, Suit.clubs, Rank.three⟩,
                 ⟨7, Suit.clubs, Rank.four⟩] }

/-! ## Helper lemmas -/

theorem handlePlayCard_status_cases (s : GameState) (c : Card) :
    (handlePlayCard s c).status = s.status ∨
    (handlePlayCard s c).status = GameStatus.ai_turn ∨
    (handlePlayCard s c).status = GameStatus.game_over ∨
    ((handlePlayCard s c).status = GameStatus.selecting_suit ∧ c.rank = Rank.eight) := by
  unfold handlePlayCard
  split
  · left; rfl
  · split
    · left; rfl
    · split
      · right; right; right; exact ⟨rfl, by assumption⟩
      · dsimp only
        split
        · right; right; left; rfl
        · right; left; rfl

theorem handleDraw_status_cases (s : GameState) :
    (handleDraw s).status = s.status ∨
    (handleDraw s).status = GameStatus.player_turn ∨
    (handleDraw s).status = GameStatus.ai_turn := by
  unfold handleDraw
  split
  · left; rfl
  · split
    · right; right; rfl
    · dsimp only
      split
      · right; left; rfl
      · right; right; rfl

theorem handleSuitSelection_status_cases (s : GameState) (su : Suit) :
    (handleSuitSelection s su).status = s.status ∨
    (handleSuitSelection s su).status = GameStatus.ai_turn := by
  unfold handleSuitSelection
  split
  · left; rfl
  · right; rfl

theorem resolveComputerTurn_status_cases (s : GameState)
    (h : s.status = GameStatus.ai_turn) :
    (resolveComputerTurn s).status = GameStatus.player_turn ∨
    (resolveComputerTurn s).status = GameStatus.ai_turn ∨
    (resolveComputerTurn s).status = GameStatus.game_over := by
  unfold resolveComputerTurn
  rw [if_neg (by simp [h])]
  split
  · dsimp only
    split
    · right; right; rfl
    · left; rfl
  · split
    · dsimp only
      split
      · right; left; rfl
      · left; rfl
    · left; rfl

theorem resolveComputerTurn_of_not_ai (s : GameState)
    (h : ¬ s.status = GameStatus.ai_turn) :
    resolveComputerTurn s = s := by
  unfold resolveComputerTurn
  rw [if_pos h]

theorem findFirstNonEight_eq_none_iff (l : List Card) :
    findFirstNonEight l = none ↔ ∀ c ∈ l, c.rank = Rank.eight := by
  induction l with
  | nil => simp [findFirstNonEight]
  | cons c cs ih =>
    by_cases h : c.rank = Rank.eight
    · simp [findFirstNonEight, h, Option.map_eq_none', ih]
    · simp [findFirstNonEight, h]

theorem findFirstNonEight_some (l : List Card) :
    ∀ d rest, findFirstNonEight l = some (d, rest) →
      rest.length + 1 = l.length ∧
      l.find? (fun c => decide (c.rank ≠ Rank.eight)) = some d := by
  induction l with
  | nil => intro d rest h; simp [findFirstNonEight] at h
  | cons c cs ih =>
    intro d rest h
    by_cases h8 : c.rank = Rank.eight
    · rw [findFirstNonEight, if_pos h8] at h
      cases hrec : findFirstNonEight cs with
      | none => rw [hrec] at h; simp at h
      | some p =>
        rw [hrec] at h
        simp only [Option.map_some', Option.some.injEq, Prod.mk.injEq] at h
        obtain ⟨h1, h2⟩ := h
        obtain ⟨hlen, hfind⟩ := ih p.1 p.2 (by rw [hrec])
        constructor
        · rw [← h2]; simp [← hlen]
        · rw [List.find?_cons_of_neg _ (by simp [h8]), ← h1]
          exact hfind
    · rw [findFirstNonEight, if_neg h8] at h
      simp only [Option.some.injEq, Prod.mk.injEq] at h
      obtain ⟨h1, h2⟩ := h
      constructor
      · rw [← h2, h1]; rfl
      · rw [List.find?_cons_of_pos _ (by simp [h8]), h1]

theorem lookupCount_bumpSuit (acc : List (Suit × Nat)) (t su : Suit) :
    lookupCount (bumpSuit acc t) su =
      if t = su then lookupCount acc su + 1 else lookupCount acc su := by
  induction acc with
  | nil => by_cases h : t = su <;> simp [bumpSuit, lookupCount, h, Ne.symm]
  | cons p rest ih =>
    obtain ⟨u, n⟩ := p
    by_cases hut : u = t
    · subst hut
      by_cases hsu : u = su <;> simp [bumpSuit, lookupCount, hsu]
    · by_cases hsu : u = su
      · subst hsu
        have htu : ¬ t = u := fun hh => hut hh.symm
        simp [bumpSuit, lookupCount, hut, htu]
      · simp [bumpSuit, lookupCount, hut, hsu, ih]

theorem countSuit_cons (c : Card) (h : List Card) (su : Suit) :
    countSuit (c :: h) su =
      (if c.suit = su then 1 else 0) + countSuit h su := by
  by_cases hcs : c.suit = su <;>
    simp [countSuit, List.filter_cons, hcs, Nat.add_comm]

theorem lookupCount_foldl (h : List Card) :
    ∀ (acc : List (Suit × Nat)) (su : Suit),
      lookupCount (h.foldl (fun a c => bumpSuit a c.suit) acc) su =
        lookupCount acc su + countSuit h su := by
  induction h with
  | nil => intro acc su; simp [countSuit]
  | cons c t ih =>
    intro acc su
    rw [List.foldl_cons, ih, lookupCount_bumpSuit, countSuit_cons]
    by_cases hcs : c.suit = su
    · simp [hcs]
      omega
    · simp [hcs]

theorem lookupCount_suitCounts (h : List Card) (su : Suit) :
    lookupCount (suitCounts h) su = countSuit h su := by
  have := lookupCount_foldl h [] su
  simpa [suitCounts, lookupCount] using this

theorem keysOf_bumpSuit (acc : List (Suit × Nat)) (t : Suit) :
    keysOf (bumpSuit acc t) =
      if t ∈ keysOf acc then keysOf acc else keysOf acc ++ [t] := by
  induction acc with
  | nil => simp [bumpSuit, keysOf]
  | cons p rest ih =>
    obtain ⟨u, n⟩ := p
    by_cases hut : u = t
    · subst hut
      simp [bumpSuit, keysOf]
    · have htu : ¬ t = u := fun hh => hut hh.symm
      rw [bumpSuit, if_neg hut]
      simp only [keysOf, List.map_cons] at ih ⊢
      rw [ih]
      by_cases hmem : t ∈ List.map Prod.fst rest
      · rw [if_pos hmem, if_pos (List.mem_cons_of_mem u hmem)]
      · rw [if_neg hmem, if_neg (by simp [htu, hmem])]
        simp

theorem keysOf_nodup_bumpSuit (acc : List (Suit × Nat)) (t : Suit)
    (h : (keysOf acc).Nodup) : (keysOf (bumpSuit acc t)).Nodup := by
  rw [keysOf_bumpSuit]
  split
  · exact h
  · rw [List.nodup_append]
    refine ⟨h, List.nodup_singleton t, ?_⟩
    intro a ha hb
    simp at hb
    subst hb
    exact absurd ha (by assumption)

theorem suitCounts_keys_nodup (h : List Card) : (keysOf (suitCounts h)).Nodup := by
  suffices aux : ∀ (l : List Card) (acc : List (Suit × Nat)),
      (keysOf acc).Nodup →
      (keysOf (l.foldl (fun a c => bumpSuit a c.suit) acc)).Nodup by
    exact aux h [] (by simp [keysOf])
  intro l
  induction l with
  | nil => intro acc hacc; exact hacc
  | cons c t ih =>
    intro acc hacc
    exact ih _ (keysOf_nodup_bumpSuit acc c.suit hacc)

theorem lookupCount_of_mem (l : List (Suit × Nat)) (su : Suit) (n : Nat)
    (hnd : (keysOf l).Nodup) (hmem : (su, n) ∈ l) : lookupCount l su = n := by
  induction l with
  | nil => simp at hmem
  | cons p rest ih =>
    obtain ⟨u, m⟩ := p
    rw [keysOf] at hnd
    simp only [List.map_cons, List.nodup_cons] at hnd
    rcases List.mem_cons.mp hmem with heq | htail
    · injection heq with h1 h2
      subst h1
      subst h2
      simp [lookupCount]
    · by_cases hus : u = su
      · subst hus
        exfalso
        exact hnd.1 (by simpa [keysOf] using List.mem_map_of_mem Prod.fst htail)
      · rw [lookupCount, if_neg hus]
        exact ih (by simpa [keysOf] using hnd.2) htail

theorem lookupCount_pos_mem (l : List (Suit × Nat)) (su : Suit)
    (hpos : 0 < lookupCount l su) : (su, lookupCount l su) ∈ l := by
  induction l with
  | nil => simp [lookupCount] at hpos
  | cons p rest ih =>
    obtain ⟨u, m⟩ := p
    by_cases hus : u = su
    · subst hus
      rw [lookupCount, if_pos rfl] at hpos ⊢
      exact List.mem_cons_self _ _
    · rw [lookupCount, if_neg hus] at hpos ⊢
      exact List.mem_cons_of_mem _ (ih hpos)

theorem pickTopSuit_eq_none_iff (l : List (Suit × Nat)) :
    pickTopSuit l = none ↔ l = [] := by
  cases l with
  | nil => simp [pickTopSuit]
  | cons p rest =>
    rw [pickTopSuit]
    cases pickTopSuit rest with
    | none => simp
    | some q => by_cases hq : q.2 > p.2 <;> simp [hq]

theorem pickTopSuit_spec (l : List (Suit × Nat)) :
    ∀ p, pickTopSuit l = some p → p ∈ l ∧ ∀ q ∈ l, q.2 ≤ p.2 := by
  induction l with
  | nil => intro p h; simp [pickTopSuit] at h
  | cons a rest ih =>
    intro p h
    rw [pickTopSuit] at h
    cases hrec : pickTopSuit rest with
    | none =>
      simp only [hrec] at h
      injection h with h
      subst h
      have hnil : rest = [] := (pickTopSuit_eq_none_iff rest).mp hrec
      subst hnil
      exact ⟨List.mem_singleton_self _, by intro q hq; simp at hq; simp [hq]⟩
    | some q =>
      simp only [hrec] at h
      obtain ⟨hqmem, hqmax⟩ := ih q hrec
      by_cases hgt : q.2 > a.2
      · rw [if_pos hgt] at h
        injection h with h
        subst h
        refine ⟨List.mem_cons_of_mem _ hqmem, ?_⟩
        intro x hx
        rcases List.mem_cons.mp hx with hxa | hxr
        · subst hxa; omega
        · exact hqmax x hxr
      · rw [if_neg hgt] at h
        injection h with h
        subst h
        refine ⟨List.mem_cons_self _ _, ?_⟩
        intro x hx
        rcases List.mem_cons.mp hx with hxa | hxr
        · subst hxa; omega
        · have := hqmax x hxr; omega

theorem bumpSuit_ne_nil (acc : List (Suit × Nat)) (t : Suit) :
    bumpSuit acc t ≠ [] := by
  cases acc with
  | nil => simp [bumpSuit]
  | cons p rest =>
    obtain ⟨u, n⟩ := p
    by_cases h : u = t <;> simp [bumpSuit, h]

theorem suitCounts_ne_nil (h : List Card) (hne : h ≠ []) : suitCounts h ≠ [] := by
  suffices aux : ∀ (l : List Card) (acc : List (Suit × Nat)),
      acc ≠ [] → l.foldl (fun a c => bumpSuit a c.suit) acc ≠ [] by
    cases h with
    | nil => exact absurd rfl hne
    | cons c t =>
      rw [suitCounts, List.foldl_cons]
      exact aux t _ (bumpSuit_ne_nil [] c.suit)
  intro l
  induction l with
  | nil => intro acc hacc; exact hacc
  | cons c t ih =>
    intro acc hacc
    rw [List.foldl_cons]
    exact ih _ (bumpSuit_ne_nil acc c.suit)

theorem aiPickSuit_max (hand : List Card) (su : Suit) :
    countSuit hand su ≤ countSuit hand (aiPickSuit hand) := by
  cases hpick : pickTopSuit (suitCounts hand) with
  | none =>
    have hnil : suitCounts hand = [] := (pickTopSuit_eq_none_iff _).mp hpick
    have h0 : countSuit hand su = 0 := by
      rw [← lookupCount_suitCounts, hnil]; rfl
    simp [h0]
  | some p =>
    obtain ⟨hmem, hmax⟩ := pickTopSuit_spec _ p hpick
    have hnd := suitCounts_keys_nodup hand
    have hp1 : lookupCount (suitCounts hand) p.1 = p.2 := by
      apply lookupCount_of_mem _ _ _ hnd
      exact (Prod.mk.eta (p := p)) ▸ hmem
    have hcp : countSuit hand p.1 = p.2 := by
      rw [← lookupCount_suitCounts, hp1]
    have hpick1 : aiPickSuit hand = p.1 := by simp [aiPickSuit, hpick]
    rw [hpick1, hcp]
    rcases Nat.eq_zero_or_pos (countSuit hand su) with h0 | hpos
    · omega
    · have hmemsu : (su, countSuit hand su) ∈ suitCounts hand := by
        have hl : lookupCount (suitCounts hand) su = countSuit hand su :=
          lookupCount_suitCounts hand su
        have := lookupCount_pos_mem (suitCounts hand) su (by omega)
        rwa [hl] at this
      exact hmax _ hmemsu

theorem find?_filter_comm (l : List Card) (p q : Card → Bool) :
    (l.filter q).find? p = l.find? (fun a => q a && p a) := by
  induction l with
  | nil => rfl
  | cons a t ih =>
    by_cases hq : q a = true
    · by_cases hp : p a = true
      · rw [List.filter_cons, if_pos hq, List.find?_cons_of_pos _ hp,
          List.find?_cons_of_pos _ (by simp [hq, hp])]
      · rw [List.filter_cons, if_pos hq, List.find?_cons_of_neg _ (by simp [hp]),
          List.find?_cons_of_neg _ (by simp [hq, hp]), ih]
    · rw [List.filter_cons, if_neg hq,
        List.find?_cons_of_neg _ (by simp [hq]), ih]

theorem aiSelectCard_spec (l : List Card) (c : Card)
    (h : aiSelectCard l = some c) :
    (l.find? (fun x => decide (x.rank ≠ Rank.eight)) = some c ∧ c.rank ≠ Rank.eight) ∨
    (l.find? (fun x => decide (x.rank ≠ Rank.eight)) = none ∧ l.head? = some c ∧
      (∀ x ∈ l, x.rank = Rank.eight)) := by
  cases l with
  | nil => simp [aiSelectCard] at h
  | cons a t =>
    rw [aiSelectCard] at h
    cases hf : (a :: t).find? (fun x => decide (x.rank ≠ Rank.eight)) with
    | some n =>
      rw [hf] at h
      injection h with h
      subst h
      left
      exact ⟨rfl, by simpa using List.find?_some hf⟩
    | none =>
      rw [hf] at h
      injection h with h
      subst h
      right
      refine ⟨rfl, rfl, ?_⟩
      intro x hx
      have := List.find?_eq_none.mp hf x hx
      simpa using this

theorem resolveComputerTurn_play (s : GameState) (c : Card)
    (hst : s.status = GameStatus.ai_turn)
    (hsel : aiSelectCard (aiPlayableCards s) = some c) :
    (resolveComputerTurn s).discardPile = c :: s.discardPile ∧
    (resolveComputerTurn s).aiHand =
      s.aiHand.filter (fun x => decide (x.id ≠ c.id)) ∧
    (resolveComputerTurn s).currentRank = c.rank ∧
    (resolveComputerTurn s).currentSuit =
      (if c.rank = Rank.eight
        then aiPickSuit (s.aiHand.filter (fun x => decide (x.id ≠ c.id)))
        else c.suit) ∧
    (resolveComputerTurn s).deck = s.deck ∧
    (resolveComputerTurn s).playerHand = s.playerHand := by
  unfold resolveComputerTurn
  rw [if_neg (by simp [hst]), hsel]
  dsimp only
  split <;> simp

theorem aiSelectCard_mem (l : List Card) (c : Card)
    (h : aiSelectCard l = some c) : c ∈ l := by
  rcases aiSelectCard_spec l c h with ⟨hf, -⟩ | ⟨-, hh, -⟩
  · exact List.mem_of_find?_eq_some hf
  · exact List.mem_of_mem_head? (hh ▸ rfl)

theorem getLast?_decomp (l : List Card) (x : Card) (h : l.getLast? = some x) :
    l = l.dropLast ++ [x] := by
  cases l with
  | nil => cases h
  | cons a t =>
    have hne : (a :: t) ≠ [] := by simp
    rw [List.getLast?_eq_getLast _ hne] at h
    injection h with h
    rw [← h]
    exact (List.dropLast_append_getLast hne).symm

theorem cons_filter_ne_id_perm (l : List Card) (c : Card)
    (hnd : (l.map Card.id).Nodup) (hmem : c ∈ l) :
    (c :: l.filter (fun x => decide (x.id ≠ c.id))).Perm l := by
  induction l with
  | nil => cases hmem
  | cons a t ih =>
    simp only [List.map_cons, List.nodup_cons] at hnd
    obtain ⟨hna, hnt⟩ := hnd
    by_cases hac : a.id = c.id
    · have hca : c = a := by
        rcases List.mem_cons.mp hmem with h | h
        · exact h
        · exact absurd (hac ▸ List.mem_map_of_mem Card.id h) hna
      subst hca
      rw [List.filter_cons, if_neg (by simp)]
      have hfil : t.filter (fun x => decide (x.id ≠ c.id)) = t := by
        apply List.filter_eq_self.mpr
        intro x hx
        simp only [decide_eq_true_eq]
        intro hxc
        exact hna (hxc ▸ List.mem_map_of_mem Card.id hx)
      rw [hfil]
    · have hct : c ∈ t := by
        rcases List.mem_cons.mp hmem with h | h
        · exact absurd (congrArg Card.id h.symm) hac
        · exact h
      rw [List.filter_cons,
        if_pos (by simp only [decide_eq_true_eq]; exact hac)]
      exact (List.Perm.swap a c _).trans ((ih hnt hct).cons a)

theorem aiHand_ids_nodup (s : GameState)
    (hid : ((allCards s).map Card.id).Nodup) : (s.aiHand.map Card.id).Nodup := by
  apply List.Nodup.sublist _ hid
  apply List.Sublist.map
  exact List.sublist_append_right _ _

theorem playerHand_ids_nodup (s : GameState)
    (hid : ((allCards s).map Card.id).Nodup) : (s.playerHand.map Card.id).Nodup := by
  apply List.Nodup.sublist _ hid
  apply List.Sublist.map
  exact (List.sublist_append_right (s.deck ++ s.discardPile) s.playerHand).trans
    (List.sublist_append_left _ s.aiHand)

/-! ## Claim theorems -/

/-- C1 (code bug): the spec's invariant demands `game_over`/`winner` as soon
as a hand is empty, including when the player's last card is an 8 resolved
through `selecting_suit`; but `handleSuitSelection` never runs `checkWinner`,
so playing a lone 8 and choosing a suit leaves an empty player hand with
status `ai_turn` and `winner = none`. -/
theorem chooseSuit_drops_win_detection :
    (handlePlayCard s0 ⟨0, Suit.spades, Rank.eight⟩).playerHand = [] ∧
    (handlePlayCard s0 ⟨0, Suit.spades, Rank.eight⟩).status = GameStatus.selecting_suit ∧
    (handleSuitSelection (handlePlayCard s0 ⟨0, Suit.spades, Rank.eight⟩)
      Suit.spades).playerHand = [] ∧
    (handleSuitSelection (handlePlayCard s0 ⟨0, Suit.spades, Rank.eight⟩)
      Suit.spades).aiHand ≠ [] ∧
    (handleSuitSelection (handlePlayCard s0 ⟨0, Suit.spades, Rank.eight⟩)
      Suit.spades).status = GameStatus.ai_turn ∧
    (handleSuitSelection (handlePlayCard s0 ⟨0, Suit.spades, Rank.eight⟩)
      Suit.spades).winner = none := by decide

/-- C2 (amended): `handlePlayCard` is a no-op when the status is not
`player_turn` or `isValidMove` rejects the card; hand membership is not
part of the guard. -/
theorem play_noop_of_failed_guard (s : GameState) (card : Card)
    (h : s.status ≠ GameStatus.player_turn ∨
      isValidMove card s.currentSuit s.currentRank = false) :
    handlePlayCard s card = s := by
  rcases h with h | h
  · simp [handlePlayCard, h]
  · by_cases hst : s.status = GameStatus.player_turn
    · simp [handlePlayCard, hst, h]
    · simp [handlePlayCard, hst]

/-- C2 witness: a concrete rejected play is a no-op. -/
theorem play_noop_of_failed_guard_witness :
    handlePlayCard s0 ⟨9, Suit.clubs, Rank.king⟩ = s0 :=
  play_noop_of_failed_guard s0 ⟨9, Suit.clubs, Rank.king⟩ (Or.inr (by decide))

/-- C2 counterexample: a card absent from the player's hand but accepted by
`isValidMove` is NOT a no-op — it is pushed onto the discard pile. -/
theorem play_foreign_card_changes_state :
    ((⟨9, Suit.hearts, Rank.king⟩ : Card) ∉ t0.playerHand) ∧
    t0.status = GameStatus.player_turn ∧
    isValidMove ⟨9, Suit.hearts, Rank.king⟩ t0.currentSuit t0.currentRank = true ∧
    handlePlayCard t0 ⟨9, Suit.hearts, Rank.king⟩ ≠ t0 := by decide

/-- C4 (amended): playing an 8 from `player_turn` always moves to
`selecting_suit` with the card shifted from hand to discard head and the
target (`currentSuit`/`currentRank`) left unchanged; `handleSuitSelection`
with a pending wild card sets `currentSuit` to the choice, `currentRank` to
8, clears the pending card and moves to `ai_turn`; it is a no-op exactly
when no pending wild card exists (the status is not consulted). -/
theorem wild_card_gate (s : GameState) (c : Card)
    (hst : s.status = GameStatus.player_turn) (h8 : c.rank = Rank.eight) :
    ((handlePlayCard s c).status = GameStatus.selecting_suit ∧
     (handlePlayCard s c).discardPile = c :: s.discardPile ∧
     (handlePlayCard s c).playerHand =
       s.playerHand.filter (fun x => decide (x.id ≠ c.id)) ∧
     (handlePlayCard s c).currentSuit = s.currentSuit ∧
     (handlePlayCard s c).currentRank = s.currentRank ∧
     (handlePlayCard s c).pendingEight = some c ∧
     (handlePlayCard s c).winner = s.winner) ∧
    (∀ (t : GameState) (su : Suit), t.pendingEight = none →
      handleSuitSelection t su = t) ∧
    (∀ (t : GameState) (su : Suit) (c0 : Card), t.pendingEight = some c0 →
      (handleSuitSelection t su).currentSuit = su ∧
      (handleSuitSelection t su).currentRank = Rank.eight ∧
      (handleSuitSelection t su).status = GameStatus.ai_turn ∧
      (handleSuitSelection t su).pendingEight = none ∧
      (handleSuitSelection t su).playerHand = t.playerHand ∧
      (handleSuitSelection t su).aiHand = t.aiHand ∧
      (handleSuitSelection t su).discardPile = t.discardPile ∧
      (handleSuitSelection t su).deck = t.deck) := by
  refine ⟨?_, ?_, ?_⟩
  · simp [handlePlayCard, hst, isValidMove, h8]
  · intro t su hp; simp [handleSuitSelection, hp]
  · intro t su c0 hp; simp [handleSuitSelection, hp]

/-- C4 witness: the lone 8 of spades played on the 5 of hearts. -/
theorem wild_card_gate_witness :
    (handlePlayCard s0 ⟨0, Suit.spades, Rank.eight⟩).status = GameStatus.selecting_suit :=
  (wild_card_gate s0 ⟨0, Suit.spades, Rank.eight⟩ rfl rfl).1.1

/-- C4 counterexample: after playing an 8 on a 5, `currentRank` is still 5
(not 8) while `selecting_suit` is active; and `handleSuitSelection` acts even
though the status is `player_turn`, as long as a pending wild card exists. -/
theorem wild_card_gate_cex :
    (handlePlayCard s0 ⟨0, Suit.spades, Rank.eight⟩).status = GameStatus.selecting_suit ∧
    (handlePlayCard s0 ⟨0, Suit.spades, Rank.eight⟩).currentRank = Rank.five ∧
    Rank.five ≠ Rank.eight ∧
    u1.pendingEight ≠ none ∧
    u1.status ≠ GameStatus.selecting_suit ∧
    handleSuitSelection u1 Suit.hearts ≠ u1 := by decide

/-- C3 (amended): `initGame` deals the first 8 cards to the player and the
next 8 to the computer, seeds the discard with the first non-8 found
scanning the remaining deck from index 0 — the end OPPOSITE to the draw end
(draws pop the tail) — removes it, errors exactly when all remaining cards
are 8s, and yields zone sizes 35/8/8/1 with the target set to the initial
discard and status `player_turn`. -/
theorem init_spec (deck : List Card) (hlen : deck.length = 52) :
    ((initGame deck).isOk = false ↔ ∀ c ∈ deck.drop 16, c.rank = Rank.eight) ∧
    (∀ st, initGame deck = Except.ok st →
      st.playerHand = deck.take 8 ∧
      st.aiHand = (deck.drop 8).take 8 ∧
      st.playerHand.length = 8 ∧
      st.aiHand.length = 8 ∧
      st.deck.length = 35 ∧
      st.discardPile.length = 1 ∧
      st.status = GameStatus.player_turn ∧
      st.winner = none ∧
      (∀ d, st.discardPile = [d] →
        (deck.drop 16).find? (fun c => decide (c.rank ≠ Rank.eight)) = some d ∧
        st.currentSuit = d.suit ∧ st.currentRank = d.rank)) := by
  cases hf : findFirstNonEight (deck.drop 16) with
  | none =>
    constructor
    · rw [← findFirstNonEight_eq_none_iff]
      simp [initGame, hf, Except.isOk, Except.toBool]
    · intro st hok
      rw [initGame] at hok
      simp [hf] at hok
  | some p =>
    obtain ⟨hlenrest, hfind⟩ := findFirstNonEight_some (deck.drop 16) p.1 p.2 (by rw [hf])
    constructor
    · constructor
      · intro habs
        rw [initGame] at habs
        simp [hf, Except.isOk, Except.toBool] at habs
      · intro hall
        rw [(findFirstNonEight_eq_none_iff _).mpr hall] at hf
        cases hf
    · intro st hok
      rw [initGame] at hok
      simp only [hf, Except.ok.injEq] at hok
      subst hok
      refine ⟨rfl, rfl, ?_, ?_, ?_, rfl, rfl, rfl, ?_⟩
      · simp [hlen]
      · simp [hlen]
      · have hdrop : (deck.drop 16).length = 36 := by simp [hlen]
        show p.2.length = 35
        omega
      · intro d hd
        simp only [List.cons.injEq, and_true] at hd
        subst hd
        exact ⟨hfind, rfl, rfl⟩

/-- C3 witness: the canonical 52-card deck initializes successfully with the
stated cardinalities. -/
theorem init_spec_witness :
    fullDeck.length = 52 ∧ v0.deck.length = 35 ∧ v0.playerHand.length = 8 := by
  have h := (init_spec fullDeck (by decide)).2 v0 (by rfl)
  exact ⟨by decide, h.2.2.2.2.1, h.2.2.1⟩

/-- C3 counterexample: on the canonical deck the code's initial discard is
the 4 of diamonds (the first non-8 from the FRONT of the post-deal deck),
while the first non-8 scanning from the draw end — the reading the claim
states — is the king of spades. -/
theorem init_discard_scan_direction_cex :
    (initGame fullDeck).isOk = true ∧
    v0.discardPile.head? = some ⟨16, Suit.diamonds, Rank.four⟩ ∧
    initialDiscardClaim fullDeck = some ⟨51, Suit.spades, Rank.king⟩ ∧
    ((⟨16, Suit.diamonds, Rank.four⟩ : Card) ≠ ⟨51, Suit.spades, Rank.king⟩) := by
  decide

/-- C5: when the AI has a playable card it plays the first playable non-8 in
hand order (the `find?` over the playable filter equals the first card of the
hand that is both playable and not an 8), plays an 8 only when every playable
card is an 8, and after playing an 8 sets `currentRank` to 8 and
`currentSuit` to a suit of maximal count in the remaining hand, defaulting to
hearts on an empty hand. -/
theorem ai_policy (s : GameState) (c : Card)
    (hst : s.status = GameStatus.ai_turn)
    (hsel : aiSelectCard (aiPlayableCards s) = some c) :
    (resolveComputerTurn s).discardPile = c :: s.discardPile ∧
    ((aiPlayableCards s).find? (fun x => decide (x.rank ≠ Rank.eight)) =
      s.aiHand.find? (fun x =>
        isValidMove x s.currentSuit s.currentRank && decide (x.rank ≠ Rank.eight))) ∧
    (∀ n, (aiPlayableCards s).find? (fun x => decide (x.rank ≠ Rank.eight)) = some n →
      c = n) ∧
    ((aiPlayableCards s).find? (fun x => decide (x.rank ≠ Rank.eight)) = none →
      (aiPlayableCards s).head? = some c ∧ c.rank = Rank.eight) ∧
    (c.rank = Rank.eight → ∀ x ∈ aiPlayableCards s, x.rank = Rank.eight) ∧
    (c.rank ≠ Rank.eight →
      (resolveComputerTurn s).currentSuit = c.suit ∧
      (resolveComputerTurn s).currentRank = c.rank) ∧
    (c.rank = Rank.eight →
      (resolveComputerTurn s).currentRank = Rank.eight ∧
      (s.aiHand.filter (fun x => decide (x.id ≠ c.id)) = [] →
        (resolveComputerTurn s).currentSuit = Suit.hearts) ∧
      (∀ su, countSuit (s.aiHand.filter (fun x => decide (x.id ≠ c.id))) su ≤
        countSuit (s.aiHand.filter (fun x => decide (x.id ≠ c.id)))
          ((resolveComputerTurn s).currentSuit))) := by
  obtain ⟨hdisc, hai, hrank, hsuit, -, -⟩ := resolveComputerTurn_play s c hst hsel
  have hspec := aiSelectCard_spec _ _ hsel
  refine ⟨hdisc, ?_, ?_, ?_, ?_, ?_, ?_⟩
  · rw [aiPlayableCards, find?_filter_comm]
  · intro n hn
    rcases hspec with ⟨hf, -⟩ | ⟨hf, -, -⟩
    · rw [hf] at hn; injection hn
    · rw [hf] at hn; cases hn
  · intro h0
    rcases hspec with ⟨hf, -⟩ | ⟨-, hhead, hall⟩
    · rw [h0] at hf; cases hf
    · exact ⟨hhead, hall c (List.mem_of_mem_head? (hhead ▸ rfl))⟩
  · intro h8 x hx
    rcases hspec with ⟨-, hne⟩ | ⟨-, -, hall⟩
    · exact absurd h8 hne
    · exact hall x hx
  · intro h8ne
    rw [hsuit, if_neg h8ne, hrank]
    exact ⟨rfl, rfl⟩
  · intro h8
    rw [hrank, hsuit, if_pos h8]
    refine ⟨h8, ?_, ?_⟩
    · intro hempty
      rw [hempty]
      rfl
    · intro su
      exact aiPickSuit_max _ su

/-- C5 witness: in `w5` the AI's only playable card is its 8, which it plays,
switching the suit to clubs (its most frequent remaining suit). -/
theorem ai_policy_witness :
    (resolveComputerTurn w5).discardPile =
      ⟨5, Suit.spades, Rank.eight⟩ :: w5.discardPile ∧
    (resolveComputerTurn w5).currentRank = Rank.eight ∧
    (resolveComputerTurn w5).currentSuit = Suit.clubs := by
  have h := ai_policy w5 ⟨5, Suit.spades, Rank.eight⟩ rfl (by decide)
  exact ⟨h.1, (h.2.2.2.2.2.2 rfl).1, by decide⟩

/-- C6: from `player_turn`, drawing on an empty deck only forfeits the turn
(status `ai_turn`, zones untouched); otherwise the deck's top (tail) card
moves to the player's hand and the status depends on whether the drawn card
is immediately playable. -/
theorem draw_spec (s : GameState) (h : s.status = GameStatus.player_turn) :
    (s.deck = [] →
      handleDraw s =
        { s with status := GameStatus.ai_turn, lastAction := "牌堆已空！跳过回合。" }) ∧
    (∀ drawn, s.deck.getLast? = some drawn →
      (handleDraw s).deck = s.deck.dropLast ∧
      (handleDraw s).playerHand = s.playerHand ++ [drawn] ∧
      (handleDraw s).discardPile = s.discardPile ∧
      (handleDraw s).aiHand = s.aiHand ∧
      (handleDraw s).status =
        (if isValidMove drawn s.currentSuit s.currentRank then GameStatus.player_turn
         else GameStatus.ai_turn)) := by
  constructor
  · intro hd
    simp [handleDraw, h, hd]
  · intro drawn hdrawn
    simp [handleDraw, h, hdrawn]

/-- C6 witness: drawing the 2 of hearts on target hearts keeps the turn. -/
theorem draw_spec_witness :
    (handleDraw w6).deck = w6.deck.dropLast ∧
    (handleDraw w6).playerHand = w6.playerHand ++ [⟨2, Suit.hearts, Rank.two⟩] := by
  have h := (draw_spec w6 rfl).2 ⟨2, Suit.hearts, Rank.two⟩ rfl
  exact ⟨h.1, h.2.1⟩

/-- C7 (spec-modelled predicate): `isValidMove` accepts exactly wilds, suit
matches and rank matches; the AI's playable filter, the UI's playable
indicator and the human-move guard all evaluate that same predicate. -/
theorem isValidMove_spec :
    (∀ (c : Card) (su : Suit) (r : Rank),
      isValidMove c su r = true ↔
        (c.rank = Rank.eight ∨ c.suit = su ∨ c.rank = r)) ∧
    (∀ s : GameState,
      aiPlayableCards s =
        s.aiHand.filter (fun c => isValidMove c s.currentSuit s.currentRank)) ∧
    (∀ (s : GameState) (c : Card),
      uiIsPlayable s c = true ↔
        (s.status = GameStatus.player_turn ∧
          isValidMove c s.currentSuit s.currentRank = true)) ∧
    (∀ (s : GameState) (c : Card),
      isValidMove c s.currentSuit s.currentRank = false → handlePlayCard s c = s) := by
  refine ⟨?_, ?_, ?_, ?_⟩
  · intro c su r; simp [isValidMove, or_assoc]
  · intro s; rfl
  · intro s c; simp [uiIsPlayable]
  · intro s c h
    by_cases hst : s.status = GameStatus.player_turn
    · simp [handlePlayCard, hst, h]
    · simp [handlePlayCard, hst]

/-- C7 witness: a concrete invalid card is rejected as a no-op. -/
theorem isValidMove_spec_witness :
    handlePlayCard s0 ⟨9, Suit.diamonds, Rank.nine⟩ = s0 :=
  isValidMove_spec.2.2.2 s0 ⟨9, Suit.diamonds, Rank.nine⟩ (by decide)

/-- C8 (amended): with pairwise-distinct card ids (as `createDeck`
guarantees), `handleDraw`, `handleSuitSelection` and `resolveComputerTurn`
preserve the multiset of cards across the four zones, and `handlePlayCard`
preserves it provided the played card is in the player's hand; a valid card
that is NOT in the hand breaks conservation (see the counterexample). -/
theorem conservation (s : GameState)
    (hid : ((allCards s).map Card.id).Nodup) :
    (allCards (handleDraw s)).Perm (allCards s) ∧
    (∀ su, allCards (handleSuitSelection s su) = allCards s) ∧
    (allCards (resolveComputerTurn s)).Perm (allCards s) ∧
    (∀ c, c ∈ s.playerHand →
      (allCards (handlePlayCard s c)).Perm (allCards s)) := by
  refine ⟨?_, ?_, ?_, ?_⟩
  · by_cases hst : s.status = GameStatus.player_turn
    · cases hdk : s.deck.getLast? with
      | none =>
        have h1 : allCards (handleDraw s) = allCards s := by
          simp [handleDraw, hst, hdk, allCards]
        rw [h1]
      | some d =>
        have hdeck := getLast?_decomp _ _ hdk
        have h1 : allCards (handleDraw s) =
            s.deck.dropLast ++ s.discardPile ++ (s.playerHand ++ [d]) ++ s.aiHand := by
          simp [handleDraw, hst, hdk, allCards]
        rw [h1, List.perm_iff_count]
        intro a
        have hco : List.count a s.deck =
            List.count a s.deck.dropLast + List.count a [d] := by
          conv_lhs => rw [hdeck]
          rw [List.count_append]
        simp only [allCards, List.count_append]
        omega
    · have h1 : handleDraw s = s := by simp [handleDraw, hst]
      rw [h1]
  · intro su
    cases hp : s.pendingEight <;> simp [handleSuitSelection, hp, allCards]
  · by_cases hst : s.status = GameStatus.ai_turn
    · cases hsel : aiSelectCard (aiPlayableCards s) with
      | some c =>
        obtain ⟨hdisc, hai, -, -, hdk2, hph⟩ := resolveComputerTurn_play s c hst hsel
        have hmem : c ∈ s.aiHand := by
          have hm := aiSelectCard_mem _ _ hsel
          rw [aiPlayableCards] at hm
          exact List.mem_of_mem_filter hm
        have hperm := cons_filter_ne_id_perm s.aiHand c (aiHand_ids_nodup s hid) hmem
        have h1 : allCards (resolveComputerTurn s) =
            s.deck ++ (c :: s.discardPile) ++ s.playerHand ++
              s.aiHand.filter (fun x => decide (x.id ≠ c.id)) := by
          rw [allCards, hdisc, hai, hdk2, hph]
        rw [h1, List.perm_iff_count]
        intro a
        have hc := hperm.count_eq a
        simp only [allCards, List.count_append, List.count_cons, beq_iff_eq] at hc ⊢
        by_cases hca : c = a <;> simp [hca] at hc ⊢ <;> omega
      | none =>
        cases hdk : s.deck.getLast? with
        | some d =>
          have hdeck := getLast?_decomp _ _ hdk
          have h1 : allCards (resolveComputerTurn s) =
              s.deck.dropLast ++ s.discardPile ++ s.playerHand ++ (s.aiHand ++ [d]) := by
            unfold resolveComputerTurn
            rw [if_neg (by simp [hst]), hsel]
            simp [allCards, hdk]
          rw [h1, List.perm_iff_count]
          intro a
          have hco : List.count a s.deck =
              List.count a s.deck.dropLast + List.count a [d] := by
            conv_lhs => rw [hdeck]
            rw [List.count_append]
          simp only [allCards, List.count_append]
          omega
        | none =>
          have h1 : allCards (resolveComputerTurn s) = allCards s := by
            unfold resolveComputerTurn
            rw [if_neg (by simp [hst]), hsel]
            simp [allCards, hdk]
          rw [h1]
    · rw [resolveComputerTurn_of_not_ai s hst]
  · intro c hmem
    by_cases hst : s.status = GameStatus.player_turn
    · by_cases hval : isValidMove c s.currentSuit s.currentRank = true
      · have hperm :=
          cons_filter_ne_id_perm s.playerHand c (playerHand_ids_nodup s hid) hmem
        have hfields : (handlePlayCard s c).deck = s.deck ∧
            (handlePlayCard s c).discardPile = c :: s.discardPile ∧
            (handlePlayCard s c).playerHand =
              s.playerHand.filter (fun x => decide (x.id ≠ c.id)) ∧
            (handlePlayCard s c).aiHand = s.aiHand := by
          unfold handlePlayCard
          rw [if_neg (by simp [hst]), if_neg (by simp [hval])]
          dsimp only
          split
          · simp
          · split <;> simp
        obtain ⟨h1, h2, h3, h4⟩ := hfields
        rw [List.perm_iff_count]
        intro a
        have hc := hperm.count_eq a
        rw [allCards, h1, h2, h3, h4]
        simp only [allCards, List.count_append, List.count_cons, beq_iff_eq] at hc ⊢
        by_cases hca : c = a <;> simp [hca] at hc ⊢ <;> omega
      · have h1 : handlePlayCard s c = s := by simp [handlePlayCard, hst, hval]
        rw [h1]
    · have h1 : handlePlayCard s c = s := by simp [handlePlayCard, hst]
      rw [h1]

/-- C8 witness: a concrete draw on the fully dealt 52-card position
preserves the card multiset. -/
theorem conservation_witness :
    (allCards (handleDraw v0)).Perm (allCards v0) :=
  (conservation v0 (by decide)).1

/-- C8 counterexample: on the fully dealt 52-card position `v0` (a
duplicate-free partition of the whole deck), playing a valid card that is
not in the player's hand grows the total card count to 53, so conservation
fails for `handlePlayCard` on arbitrary card arguments. -/
theorem conservation_cex :
    ((allCards v0).map Card.id).Nodup ∧
    (allCards v0).Perm fullDeck ∧
    (allCards v0).length = 52 ∧
    (allCards (handlePlayCard v0 ⟨99, Suit.diamonds, Rank.four⟩)).length = 53 := by
  decide

/-- C9: the computer turn never produces `selecting_suit` (when it plays an
8 it picks the suit atomically), and among all operations only the human
playing an 8 can newly enter `selecting_suit`. -/
theorem selecting_suit_only_from_human_eight (s : GameState) :
    (s.status = GameStatus.ai_turn →
      (resolveComputerTurn s).status ≠ GameStatus.selecting_suit) ∧
    ((resolveComputerTurn s).status = GameStatus.selecting_suit →
      s.status = GameStatus.selecting_suit) ∧
    ((handleDraw s).status = GameStatus.selecting_suit →
      s.status = GameStatus.selecting_suit) ∧
    (∀ su, (handleSuitSelection s su).status = GameStatus.selecting_suit →
      s.status = GameStatus.selecting_suit) ∧
    (∀ c, (handlePlayCard s c).status = GameStatus.selecting_suit →
      s.status = GameStatus.selecting_suit ∨ c.rank = Rank.eight) := by
  refine ⟨?_, ?_, ?_, ?_, ?_⟩
  · intro h
    rcases resolveComputerTurn_status_cases s h with h1 | h1 | h1 <;> simp [h1]
  · intro habs
    by_cases h : s.status = GameStatus.ai_turn
    · rcases resolveComputerTurn_status_cases s h with h1 | h1 | h1 <;>
        rw [habs] at h1 <;> simp at h1
    · rw [resolveComputerTurn_of_not_ai s h] at habs
      exact habs
  · intro habs
    rcases handleDraw_status_cases s with h1 | h1 | h1 <;> rw [habs] at h1 <;>
      first
        | exact h1.symm
        | simp at h1
  · intro su habs
    rcases handleSuitSelection_status_cases s su with h1 | h1 <;> rw [habs] at h1 <;>
      first
        | exact h1.symm
        | simp at h1
  · intro c habs
    rcases handlePlayCard_status_cases s c with h1 | h1 | h1 | h1
    · rw [habs] at h1; exact Or.inl h1.symm
    · rw [habs] at h1; simp at h1
    · rw [habs] at h1; simp at h1
    · exact Or.inr h1.2

/-- C9 witness: a concrete AI turn (the AI playing its only card, an 8)
does not end in `selecting_suit`. -/
theorem selecting_suit_only_from_human_eight_witness :
    (resolveComputerTurn w5).status ≠ GameStatus.selecting_suit :=
  (selecting_suit_only_from_human_eight w5).1 rfl

/-- C10: from `player_turn`, `handleDraw` leaves the discard pile, the AI
hand, the current target, the winner and the pending wild card untouched. -/
theorem draw_frame (s : GameState) (h : s.status = GameStatus.player_turn) :
    (handleDraw s).discardPile = s.discardPile ∧
    (handleDraw s).aiHand = s.aiHand ∧
    (handleDraw s).currentSuit = s.currentSuit ∧
    (handleDraw s).currentRank = s.currentRank ∧
    (handleDraw s).winner = s.winner ∧
    (handleDraw s).pendingEight = s.pendingEight := by
  cases hdeck : s.deck.getLast? <;> simp [handleDraw, h, hdeck]

/-- C10 witness: the frame conditions at a concrete draw. -/
theorem draw_frame_witness :
    (handleDraw w6).discardPile = w6.discardPile ∧
    (handleDraw w6).aiHand = w6.aiHand :=
  ⟨(draw_frame w6 rfl).1, (draw_frame w6 rfl).2.1⟩

end CrazyEights
